import Mathlib

/-!
Shallow embedding of the user-management core of the repository:
the validator (src/utils/validation.ts), the filter engine (src/utils/filters.ts),
the data store (src/hooks/useUser.ts), the edit-form submission path
(src/components/EditUserForm.tsx together with src/app/page.tsx) and the
debounce timer (the useDebounce hook).

JavaScript strings are modelled as lists of characters so that every
operation is executable and reducible by the kernel.
-/

/-- JavaScript strings, modelled as lists of characters. -/
abbrev Str := List Char

/-- Model of String.prototype.trim: removes leading and trailing whitespace. -/
def jsTrim (s : Str) : Str :=
  ((s.dropWhile Char.isWhitespace).reverse.dropWhile Char.isWhitespace).reverse

/-- Model of String.prototype.toLowerCase. -/
def jsToLower (s : Str) : Str :=
  s.map Char.toLower

/-- Model of String.prototype.startsWith: the second list is a prefix of the first. -/
def jsStartsWith : Str → Str → Bool
  | _, [] => true
  | [], _ :: _ => false
  | a :: as, b :: bs => a == b && jsStartsWith as bs

/-- Model of String.prototype.includes: substring containment. -/
def jsIncludes : Str → Str → Bool
  | [], sub => jsStartsWith [] sub
  | c :: rest, sub => jsStartsWith (c :: rest) sub || jsIncludes rest sub

/-- Lexicographic comparison of strings by character code, the order used by
Array.prototype.sort with the default comparator. -/
def strLe : Str → Str → Bool
  | [], _ => true
  | _ :: _, [] => false
  | a :: as, b :: bs => decide (a < b) || (a == b && strLe as bs)

/-- The relation form of strLe, used to state sortedness. -/
def StrLe (a b : Str) : Prop :=
  strLe a b = true

instance : DecidableRel StrLe :=
  fun a b => inferInstanceAs (Decidable (strLe a b = true))

instance : IsTotal Str StrLe where
  total a b := by
    induction a generalizing b with
    | nil => left; rfl
    | cons x xs ih =>
      cases b with
      | nil => right; rfl
      | cons y ys =>
        rcases lt_trichotomy x y with h | h | h
        · left; simp [StrLe, strLe, h]
        · subst h
          rcases ih ys with h2 | h2
          · left; simp [StrLe, strLe]; exact h2
          · right; simp [StrLe, strLe]; exact h2
        · right; simp [StrLe, strLe, h]

instance : IsTrans Str StrLe where
  trans a := by
    induction a with
    | nil => intro b c _ _; rfl
    | cons x xs ih =>
      intro b c h1 h2
      cases b with
      | nil => simp [StrLe, strLe] at h1
      | cons y ys =>
        cases c with
        | nil => simp [StrLe, strLe] at h2
        | cons z zs =>
          simp only [StrLe, strLe, Bool.or_eq_true, Bool.and_eq_true,
            decide_eq_true_eq, beq_iff_eq] at h1 h2 ⊢
          rcases h1 with h1 | ⟨rfl, h1⟩
          · rcases h2 with h2 | ⟨rfl, h2⟩
            · exact Or.inl (lt_trans h1 h2)
            · exact Or.inl h1
          · rcases h2 with h2 | ⟨rfl, h2⟩
            · exact Or.inl h2
            · exact Or.inr ⟨rfl, ih ys zs h1 h2⟩

/-- Geo coordinates, nested inside an address (src/types/user.ts). -/
structure Geo where
  lat : Str
  lng : Str
deriving DecidableEq

/-- Postal address of a user (src/types/user.ts). -/
structure Address where
  street : Str
  suite : Str
  city : Str
  zipcode : Str
  geo : Geo
deriving DecidableEq

/-- Company of a user (src/types/user.ts). -/
structure Company where
  name : Str
  catchPhrase : Str
  bs : Str
deriving DecidableEq

/-- One user record (src/types/user.ts). -/
structure User where
  id : Int
  name : Str
  username : Str
  email : Str
  address : Address
  phone : Str
  website : Str
  company : Company
deriving DecidableEq

/-- The editable projection of a user, the draft held by the edit form. -/
structure EditableUser where
  name : Str
  email : Str
  city : Str
deriving DecidableEq

/-- Field-error mapping: an absent entry means the field is valid. -/
structure FormErrors where
  name : Option Str := none
  email : Option Str := none
  city : Option Str := none
deriving DecidableEq

/-- Character class of the email regex written as a set difference:
neither whitespace nor the at sign. -/
def isEmailChar (c : Char) : Bool :=
  !c.isWhitespace && c != '@'

/-- Matcher for the anchored email regex of isValidEmail in
src/utils/validation.ts: one-or-more characters that are neither whitespace
nor the at sign, an at sign, one-or-more such characters, a literal dot,
then one-or-more such characters.  A match is a decomposition of the whole
string at the position of the at sign consumed by the literal at and at the
position of the dot consumed by the literal dot. -/
def matchesEmailRegex (cs : Str) : Bool :=
  (List.range cs.length).any fun i =>
    (List.range cs.length).any fun j =>
      decide (i < j) && (cs.getD i ' ' == '@') && (cs.getD j ' ' == '.') &&
      !(cs.take i).isEmpty && (cs.take i).all isEmailChar &&
      !((cs.drop (i + 1)).take (j - (i + 1))).isEmpty &&
      ((cs.drop (i + 1)).take (j - (i + 1))).all isEmailChar &&
      !(cs.drop (j + 1)).isEmpty && (cs.drop (j + 1)).all isEmailChar

/-- Model of isValidEmail from src/utils/validation.ts. -/
def isValidEmail (email : Str) : Bool :=
  matchesEmailRegex email

/-- Pattern the specification claims for a valid email, transcribed from its
words: one-or-more non-space-non-at characters, an at sign, one-or-more
non-space-non-at characters, a dot, then one-or-more non-space characters.
It differs from the code regex in the last character class, which here does
not exclude the at sign.  This definition follows the words of the claim and
exists only to compare them against the code. -/
def matchesSpecEmailPattern (cs : Str) : Bool :=
  (List.range cs.length).any fun i =>
    (List.range cs.length).any fun j =>
      decide (i < j) && (cs.getD i ' ' == '@') && (cs.getD j ' ' == '.') &&
      !(cs.take i).isEmpty && (cs.take i).all isEmailChar &&
      !((cs.drop (i + 1)).take (j - (i + 1))).isEmpty &&
      ((cs.drop (i + 1)).take (j - (i + 1))).all isEmailChar &&
      !(cs.drop (j + 1)).isEmpty && (cs.drop (j + 1)).all (fun c => !c.isWhitespace)

/-- Model of validateUserForm from src/utils/validation.ts. -/
def validateUserForm (formData : EditableUser) : FormErrors :=
  let trimmedName := jsTrim formData.name
  let nameError : Option Str :=
    if trimmedName.isEmpty then some "Name is required".data
    else if trimmedName.length < 2 then some "Name must be at least 2 characters".data
    else none
  let trimmedEmail := jsTrim formData.email
  let emailError : Option Str :=
    if trimmedEmail.isEmpty then some "Email is required".data
    else if !isValidEmail trimmedEmail then some "Please enter a valid email address".data
    else none
  let trimmedCity := jsTrim formData.city
  let cityError : Option Str :=
    if trimmedCity.isEmpty then some "City is required".data
    else if trimmedCity.length < 2 then some "City must be at least 2 characters".data
    else none
  { name := nameError, email := emailError, city := cityError }

/-- Model of hasErrors from src/utils/validation.ts: at least one field has
an error entry. -/
def hasErrors (errors : FormErrors) : Bool :=
  errors.name.isSome || errors.email.isSome || errors.city.isSome

/-- Model of filterUsersByName from src/utils/filters.ts. -/
def filterUsersByName (users : List User) (query : Str) : List User :=
  if (jsTrim query).isEmpty then users
  else
    let lowerQuery := jsToLower query
    users.filter fun user => jsIncludes (jsToLower user.name) lowerQuery

/-- Model of filterUsersByCity from src/utils/filters.ts. -/
def filterUsersByCity (users : List User) (city : Str) : List User :=
  if city.isEmpty then users
  else
    let lowerCity := jsToLower city
    users.filter fun user => jsToLower user.address.city == lowerCity

/-- Model of applyFilters from src/utils/filters.ts: name filter first,
then city filter. -/
def applyFilters (users : List User) (searchQuery : Str) (selectedCity : Str) : List User :=
  let filtered := users
  let filtered := filterUsersByName filtered searchQuery
  let filtered := filterUsersByCity filtered selectedCity
  filtered

/-- First-occurrence deduplication: the semantics of collecting a list into a
JavaScript Set and enumerating it in insertion order. -/
def setDedup : List Str → List Str
  | [] => []
  | c :: rest => c :: (setDedup rest).filter (fun d => d != c)

/-- Model of getUniqueCities from src/utils/filters.ts: deduplicate the city
values through a Set, then sort with the default comparator. -/
def getUniqueCities (users : List User) : List Str :=
  let cities := setDedup (users.map fun user => user.address.city)
  List.insertionSort StrLe cities

/-- State held by the useUsers hook: collection, loading flag, error. -/
structure StoreState where
  users : List User
  loading : Bool
  error : Option Str
deriving DecidableEq

/-- The state the hook starts in: empty collection, loading, no error. -/
def initialStoreState : StoreState :=
  { users := [], loading := true, error := none }

/-- Result of the awaited fetch: the decoded array, or a thrown error message
(non-2xx responses throw the fixed message below, transport failures throw
their own). -/
inductive FetchOutcome where
  | success (data : List User)
  | failure (message : Str)

/-- The message thrown by fetchUsers when the response is not ok. -/
def fetchFailedMessage : Str :=
  "Failed to fetch users".data

/-- The store after loadUsers has set the loading flag and cleared the error,
while the fetch is still outstanding. -/
def inFlightState (st : StoreState) : StoreState :=
  { st with loading := true, error := none }

/-- The try/catch/finally continuation of loadUsers applied once the fetch
settles, in the still-mounted case: success stores the data, failure stores
the message, and either way the loading flag is cleared. -/
def settleFetch (st : StoreState) : FetchOutcome → StoreState
  | .success data => { st with users := data, loading := false }
  | .failure message => { st with error := some message, loading := false }

/-- The whole fetch lifecycle of useUsers from mount to settlement. -/
def loadUsers (outcome : FetchOutcome) : StoreState :=
  settleFetch (inFlightState initialStoreState) outcome

/-- Partial user: the updates argument of updateUser, an object that may
carry any subset of the user fields. -/
structure UserPatch where
  id : Option Int := none
  name : Option Str := none
  username : Option Str := none
  email : Option Str := none
  address : Option Address := none
  phone : Option Str := none
  website : Option Str := none
  company : Option Company := none
deriving DecidableEq

/-- Object spread of a partial user over a full user: each present field of
the patch replaces the corresponding field, absent fields are kept. -/
def applyPatch (user : User) (updates : UserPatch) : User :=
  { id := updates.id.getD user.id
    name := updates.name.getD user.name
    username := updates.username.getD user.username
    email := updates.email.getD user.email
    address := updates.address.getD user.address
    phone := updates.phone.getD user.phone
    website := updates.website.getD user.website
    company := updates.company.getD user.company }

/-- Model of updateUser from src/hooks/useUser.ts: map over the collection,
spreading the updates over every record whose id matches. -/
def updateUser (users : List User) (id : Int) (updates : UserPatch) : List User :=
  users.map fun user => if user.id == id then applyPatch user updates else user

/-- Page-level state relevant to the edit flow of src/app/page.tsx. -/
structure PageState where
  users : List User
  editingUser : Option User
deriving DecidableEq

/-- The updates object built by handleSubmit in src/components/EditUserForm.tsx
once validation passes: trimmed name, trimmed email, and a copy of the address
of the record under edit with the city replaced by the trimmed draft city. -/
def buildUpdates (user : User) (formData : EditableUser) : UserPatch :=
  { name := some (jsTrim formData.name)
    email := some (jsTrim formData.email)
    address := some { user.address with city := jsTrim formData.city } }

/-- Model of handleSaveUser from src/app/page.tsx: when a record is under
edit, apply the updates to it and clear the edit target. -/
def handleSaveUser (st : PageState) (updates : UserPatch) : PageState :=
  match st.editingUser with
  | some editing => { users := updateUser st.users editing.id updates, editingUser := none }
  | none => st

/-- One submission of the edit form: handleSubmit of EditUserForm validates
the full draft and, only when the error mapping is empty, invokes onSave,
which is handleSaveUser of the page.  The form is rendered with the record
held in the edit target. -/
def submitEdit (st : PageState) (formData : EditableUser) : PageState :=
  match st.editingUser with
  | none => st
  | some user =>
    let validationErrors := validateUserForm formData
    if hasErrors validationErrors then st
    else handleSaveUser st (buildUpdates user formData)

/-- State of the useDebounce hook plus a log of every propagation that has
happened: the current debounced value, the pending timeout (its fire time and
the value it will publish), and the list of fires so far. -/
structure DebounceState (α : Type) where
  debounced : α
  pending : Option (Nat × α)
  fired : List (Nat × α)
deriving DecidableEq

/-- Let the clock advance to the given time with no further input: a pending
timeout due by then fires, publishing its value and logging the propagation. -/
def fireIfDue {α : Type} (st : DebounceState α) (now : Nat) : DebounceState α :=
  match st.pending with
  | some (tf, v) =>
    if tf ≤ now then { debounced := v, pending := none, fired := st.fired ++ [(tf, v)] }
    else st
  | none => st

/-- Effect run of useDebounce for an input value arriving at a given time:
an earlier pending timeout has either fired already or is cleared by the
cleanup, and a new timeout is scheduled one delay later. -/
def stepInput {α : Type} (delay : Nat) (st : DebounceState α) (t : Nat) (v : α) : DebounceState α :=
  let st1 := fireIfDue st t
  { st1 with pending := some (t + delay, v) }

/-- Run the hook over a time-ordered list of input events, starting from the
mount state in which the debounced value equals the initial input. -/
def runDebounce {α : Type} (delay : Nat) (init : α) (inputs : List (Nat × α)) : DebounceState α :=
  inputs.foldl (fun st p => stepInput delay st p.1 p.2)
    { debounced := init, pending := none, fired := [] }

/-- Run the hook over the input events and then let time pass with no further
input until the given moment. -/
def settleDebounce {α : Type} (delay : Nat) (init : α) (inputs : List (Nat × α)) (tEnd : Nat) :
    DebounceState α :=
  fireIfDue (runDebounce delay init inputs) tEnd

/-- The default delay of useDebounce when the caller gives none. -/
def useDebounceDefaultDelay : Nat :=
  300

/-- Concrete geo value for sample records. -/
def sampleGeo : Geo :=
  { lat := "0".data, lng := "0".data }

/-- Concrete address for sample records. -/
def sampleAddress : Address :=
  { street := "A St".data, suite := "1".data, city := "NY".data,
    zipcode := "0".data, geo := sampleGeo }

/-- Concrete company for sample records. -/
def sampleCompany : Company :=
  { name := "Acme".data, catchPhrase := "x".data, bs := "y".data }

/-- A concrete sample record used to instantiate proved statements. -/
def bobUser : User :=
  { id := 1, name := "Bob".data, username := "bob".data, email := "bob@x.com".data,
    address := sampleAddress, phone := "1".data, website := "z".data,
    company := sampleCompany }

/-- A second concrete sample record with a different id and city. -/
def alizaUser : User :=
  { id := 2, name := "Aliza".data, username := "aliza".data, email := "aliza@x.com".data,
    address := { sampleAddress with city := "LA".data }, phone := "2".data,
    website := "w".data, company := sampleCompany }

/-- Helper: membership in the deduplicated list is membership in the original list. -/
theorem mem_setDedup {x : Str} : ∀ {l : List Str}, x ∈ setDedup l ↔ x ∈ l := by
  intro l
  induction l with
  | nil => simp [setDedup]
  | cons c rest ih =>
    simp only [setDedup, List.mem_cons, List.mem_filter, ih, bne_iff_ne, ne_eq]
    constructor
    · rintro (rfl | ⟨h, _⟩)
      · exact Or.inl rfl
      · exact Or.inr h
    · rintro (rfl | h)
      · exact Or.inl rfl
      · by_cases hxc : x = c
        · exact Or.inl hxc
        · exact Or.inr ⟨h, hxc⟩

/-- Helper: the deduplicated list has no duplicate entries. -/
theorem setDedup_nodup : ∀ (l : List Str), (setDedup l).Nodup := by
  intro l
  induction l with
  | nil => simp [setDedup]
  | cons c rest ih =>
    simp only [setDedup, List.nodup_cons]
    refine ⟨fun hmem => ?_, ih.filter (fun d => d != c)⟩
    have h2 := (List.mem_filter.mp hmem).2
    simp at h2

/-- Claim C1 counterexample: the trimmed email of the draft
(name Ann, email a@b.c@d, city NY) matches the pattern stated in the claim,
whose last character class only excludes whitespace, yet validate reports the
invalid-email error on it, so the claim as stated fails on this input. -/
theorem email_claim_counterexample :
    matchesSpecEmailPattern (jsTrim "a@b.c@d".data) = true ∧
    (validateUserForm { name := "Ann".data, email := "a@b.c@d".data, city := "NY".data }).email
      = some "Please enter a valid email address".data := by
  exact ⟨by decide, by decide⟩

/-- Claim C1 (amended): for every draft, validate reports on the email field:
the required error when the trimmed email is empty, otherwise the
invalid-format error exactly when the trimmed email does not match the code
regex, whose three character classes all exclude whitespace and the at sign;
and the draft (Ann, not-an-email, NY) yields exactly the email error and no
other field error. -/
theorem email_validation_rule (d : EditableUser) :
    (validateUserForm d).email =
      (if (jsTrim d.email).isEmpty then some "Email is required".data
       else if !isValidEmail (jsTrim d.email) then some "Please enter a valid email address".data
       else none) ∧
    validateUserForm { name := "Ann".data, email := "not-an-email".data, city := "NY".data }
      = { name := none, email := some "Please enter a valid email address".data, city := none } := by
  exact ⟨rfl, by decide⟩

/-- Claim C8: validate evaluates the name and the city fields independently of
the other fields: each is the required error when empty after trimming, else
the two-character minimum error when the trimmed length is below two, else no
error; and the two concrete drafts of the claim yield exactly the stated
single name error. -/
theorem name_city_validation_rule (d : EditableUser) :
    (validateUserForm d).name =
      (if (jsTrim d.name).isEmpty then some "Name is required".data
       else if (jsTrim d.name).length < 2 then some "Name must be at least 2 characters".data
       else none) ∧
    (validateUserForm d).city =
      (if (jsTrim d.city).isEmpty then some "City is required".data
       else if (jsTrim d.city).length < 2 then some "City must be at least 2 characters".data
       else none) ∧
    validateUserForm { name := "".data, email := "a@b.com".data, city := "NY".data }
      = { name := some "Name is required".data, email := none, city := none } ∧
    validateUserForm { name := "A".data, email := "a@b.com".data, city := "NY".data }
      = { name := some "Name must be at least 2 characters".data, email := none, city := none } := by
  exact ⟨rfl, rfl, by decide, by decide⟩

/-- Claim C5: while the fetch is in flight the store shows loading with an
empty collection and no error; a successful fetch ends with the decoded
array, no error and loading cleared; a failed fetch ends with the thrown
message stored, loading cleared and the collection still empty. -/
theorem fetch_lifecycle (data : List User) (message : Str) :
    inFlightState initialStoreState = { users := [], loading := true, error := none } ∧
    loadUsers (FetchOutcome.success data) = { users := data, loading := false, error := none } ∧
    loadUsers (FetchOutcome.failure message)
      = { users := [], loading := false, error := some message } := by
  exact ⟨rfl, rfl, rfl⟩

/-- Claim C2 counterexample: with the whitespace-only query the name filter
returns the input unchanged, so the sample record is in the result although
its lowercased name does not contain the lowercased query; the third conjunct
of the claim therefore fails when quantified over every query. -/
theorem filterByName_claim_counterexample :
    bobUser ∈ filterUsersByName [bobUser] " ".data ∧
    jsIncludes (jsToLower bobUser.name) (jsToLower " ".data) = false := by
  exact ⟨by decide, by decide⟩

/-- Claim C2 (amended): if the query is empty or whitespace-only the name
filter returns the collection unchanged; the result is always a subsequence
of the input; and when the query is not whitespace-only, every record in the
result has a name whose lowercasing contains the lowercasing of the query as
a substring. -/
theorem filterUsersByName_spec (R : List User) (q : Str) :
    ((jsTrim q).isEmpty = true → filterUsersByName R q = R) ∧
    (filterUsersByName R q).Sublist R ∧
    ((jsTrim q).isEmpty = false →
      ∀ u ∈ filterUsersByName R q, jsIncludes (jsToLower u.name) (jsToLower q) = true) := by
  refine ⟨fun h => ?_, ?_, fun h u hu => ?_⟩
  · simp [filterUsersByName, h]
  · unfold filterUsersByName
    split
    · exact List.Sublist.refl R
    · exact List.filter_sublist R
  · unfold filterUsersByName at hu
    rw [if_neg (by simp [h])] at hu
    simp only [List.mem_filter] at hu
    exact hu.2

/-- Witness for the amended claim C2 at concrete inputs. -/
theorem filterUsersByName_spec_witness :
    filterUsersByName [bobUser] "  ".data = [bobUser] ∧
    ∀ u ∈ filterUsersByName [bobUser] "ob".data,
      jsIncludes (jsToLower u.name) (jsToLower "ob".data) = true := by
  constructor
  · exact (filterUsersByName_spec [bobUser] "  ".data).1 (by decide)
  · exact (filterUsersByName_spec [bobUser] "ob".data).2.2 (by decide)

/-- Claim C3: applyFilters is the sequential composition of the name filter
and then the city filter, and the two filters commute. -/
theorem applyFilters_composition (R : List User) (q c : Str) :
    applyFilters R q c = filterUsersByCity (filterUsersByName R q) c ∧
    filterUsersByCity (filterUsersByName R q) c = filterUsersByName (filterUsersByCity R c) q := by
  refine ⟨rfl, ?_⟩
  by_cases hq : (jsTrim q).isEmpty = true
  · simp [filterUsersByName, hq]
  · by_cases hc : c.isEmpty = true
    · simp [filterUsersByCity, hc]
    · simp only [filterUsersByName, filterUsersByCity, if_neg hq, if_neg hc]
      rw [List.filter_filter, List.filter_filter]
      exact List.filter_congr fun x _ => Bool.and_comm _ _

/-- Claim C7: the unique-cities list contains a city exactly when some record
stores it (casing preserved, case-sensitive deduplication), has no
duplicates, and is sorted ascending in the default comparator order. -/
theorem getUniqueCities_spec (R : List User) :
    (∀ c : Str, c ∈ getUniqueCities R ↔ ∃ u ∈ R, u.address.city = c) ∧
    (getUniqueCities R).Nodup ∧
    List.Sorted StrLe (getUniqueCities R) := by
  simp only [getUniqueCities]
  refine ⟨fun c => ?_, ?_, List.sorted_insertionSort StrLe _⟩
  · rw [(List.perm_insertionSort StrLe _).mem_iff, mem_setDedup, List.mem_map]
  · exact (List.perm_insertionSort StrLe _).nodup_iff.mpr (setDedup_nodup _)

/-- Claim C6: update replaces exactly the given fields on every record whose
id matches, keeps every field the patch does not carry, keeps every record
with a non-matching id identical, and is a no-op when no record has the id. -/
theorem updateUser_frame_spec (users : List User) (id : Int) (p : UserPatch) :
    ((∀ u ∈ users, u.id ≠ id) → updateUser users id p = users) ∧
    (updateUser users id p).length = users.length ∧
    (∀ i : Nat, ∀ u : User, users[i]? = some u →
      (u.id ≠ id → (updateUser users id p)[i]? = some u) ∧
      (u.id = id →
        (updateUser users id p)[i]? = some
          { id := p.id.getD u.id
            name := p.name.getD u.name
            username := p.username.getD u.username
            email := p.email.getD u.email
            address := p.address.getD u.address
            phone := p.phone.getD u.phone
            website := p.website.getD u.website
            company := p.company.getD u.company })) := by
  refine ⟨fun h => ?_, by simp [updateUser], fun i u hu => ⟨fun hne => ?_, fun heq => ?_⟩⟩
  · unfold updateUser
    conv_rhs => rw [← List.map_id users]
    refine List.map_congr_left fun v hv => ?_
    rw [if_neg (by simpa using h v hv)]
    rfl
  · unfold updateUser
    rw [List.getElem?_map, hu]
    simp [hne]
  · unfold updateUser
    rw [List.getElem?_map, hu]
    simp [heq, applyPatch]

/-- Witness for claim C6 at concrete inputs: an update against an absent id
is a no-op, and an update of the name replaces only the name. -/
theorem updateUser_frame_spec_witness :
    updateUser [bobUser] 2 { name := some "X".data } = [bobUser] ∧
    (updateUser [bobUser] 1 { name := some "X".data })[0]? = some { bobUser with name := "X".data } := by
  constructor
  · exact (updateUser_frame_spec [bobUser] 2 { name := some "X".data }).1 (by decide)
  · exact ((updateUser_frame_spec [bobUser] 1 { name := some "X".data }).2.2 0 bobUser rfl).2 (by decide)

/-- Claim C10: update preserves the length of the collection, and whenever
the patch does not carry the id field the sequence of record ids is exactly
unchanged, so id-uniqueness of the collection is preserved. -/
theorem updateUser_preserves_ids (users : List User) (id : Int) (p : UserPatch) :
    (updateUser users id p).length = users.length ∧
    (p.id = none → (updateUser users id p).map User.id = users.map User.id) ∧
    (p.id = none → (users.map User.id).Nodup → ((updateUser users id p).map User.id).Nodup) := by
  have hmap : p.id = none → (updateUser users id p).map User.id = users.map User.id := by
    intro hp
    unfold updateUser
    rw [List.map_map]
    refine List.map_congr_left fun v hv => ?_
    by_cases h : v.id = id
    · simp [Function.comp, h, applyPatch, hp]
    · simp [Function.comp, h]
  exact ⟨by simp [updateUser], hmap, fun hp hnd => (hmap hp) ▸ hnd⟩

/-- Witness for claim C10 at concrete inputs. -/
theorem updateUser_preserves_ids_witness :
    (updateUser [bobUser, alizaUser] 1 { name := some "X".data }).map User.id
        = [bobUser, alizaUser].map User.id ∧
    ((updateUser [bobUser, alizaUser] 1 { name := some "X".data }).map User.id).Nodup := by
  have h := updateUser_preserves_ids [bobUser, alizaUser] 1 { name := some "X".data }
  exact ⟨h.2.1 rfl, h.2.2 rfl (by decide)⟩

/-- Claim C4: submitting the edit form commits the draft only when validation
yields zero field errors: with a non-empty error mapping the state is
unchanged, so the collection is untouched and the edit target remains set;
with an empty mapping, update is invoked on the record under edit with the
trimmed name, the trimmed email and a copy of its address whose city is the
trimmed draft city, and the edit target becomes none. -/
theorem submitEdit_spec (st : PageState) (d : EditableUser) (u : User) :
    (hasErrors (validateUserForm d) = true → submitEdit st d = st) ∧
    (st.editingUser = some u → hasErrors (validateUserForm d) = false →
      submitEdit st d =
        { users := updateUser st.users u.id
            { name := some (jsTrim d.name)
              email := some (jsTrim d.email)
              address := some { u.address with city := jsTrim d.city } }
          editingUser := none }) := by
  constructor
  · intro h
    unfold submitEdit
    cases hst : st.editingUser with
    | none => rfl
    | some user => simp [h]
  · intro hst h
    unfold submitEdit
    rw [hst]
    simp [h, handleSaveUser, hst, buildUpdates]

/-- Witness for claim C4 at concrete inputs: an invalid draft leaves the
state unchanged, a valid draft commits the trimmed fields and clears the
edit target. -/
theorem submitEdit_spec_witness :
    submitEdit { users := [bobUser], editingUser := some bobUser }
        { name := "".data, email := "a@b.com".data, city := "NY".data }
      = { users := [bobUser], editingUser := some bobUser } ∧
    submitEdit { users := [bobUser], editingUser := some bobUser }
        { name := "Bo".data, email := "a@b.com".data, city := "LA".data }
      = { users := updateUser [bobUser] 1
            { name := some (jsTrim "Bo".data)
              email := some (jsTrim "a@b.com".data)
              address := some { bobUser.address with city := jsTrim "LA".data } }
          editingUser := none } := by
  constructor
  · exact (submitEdit_spec { users := [bobUser], editingUser := some bobUser }
      { name := "".data, email := "a@b.com".data, city := "NY".data } bobUser).1 (by decide)
  · exact (submitEdit_spec { users := [bobUser], editingUser := some bobUser }
      { name := "Bo".data, email := "a@b.com".data, city := "LA".data } bobUser).2 rfl (by decide)

/-- Helper: a pending timeout that is due by the given time fires, publishing
its value and appending one propagation to the log. -/
theorem fireIfDue_fires {α : Type} (d v : α) (log : List (Nat × α)) (tf now : Nat)
    (h : tf ≤ now) :
    fireIfDue { debounced := d, pending := some (tf, v), fired := log } now
      = { debounced := v, pending := none, fired := log ++ [(tf, v)] } := by
  simp [fireIfDue, h]

/-- Helper: while further inputs keep arriving strictly within the delay,
no pending timeout ever fires: the debounced value and the propagation log
stay as they are and only the pending timeout is replaced, ending at the
timeout of the last input. -/
theorem runDebounce_rapid {α : Type} (delay : Nat) (d : α) (log : List (Nat × α)) :
    ∀ (first : Nat × α) (rest : List (Nat × α)),
      List.Chain' (fun pq1 pq2 => pq1.1 < pq2.1 ∧ pq2.1 < pq1.1 + delay) (first :: rest) →
      rest.foldl (fun st pq => stepInput delay st pq.1 pq.2)
          { debounced := d, pending := some (first.1 + delay, first.2), fired := log }
        = { debounced := d
            pending := some ((rest.getLastD first).1 + delay, (rest.getLastD first).2)
            fired := log } := by
  intro first rest
  induction rest generalizing first with
  | nil => intro _; rfl
  | cons pq2 tail ih =>
    intro hchain
    have hpair := (List.chain'_cons.mp hchain).1
    have htail := (List.chain'_cons.mp hchain).2
    have hnotdue : ¬ (first.1 + delay ≤ pq2.1) := Nat.not_le.mpr hpair.2
    have hstep : stepInput delay
        { debounced := d, pending := some (first.1 + delay, first.2), fired := log } pq2.1 pq2.2
        = { debounced := d, pending := some (pq2.1 + delay, pq2.2), fired := log } := by
      simp [stepInput, fireIfDue, hnotdue]
    rw [List.getLastD_cons, List.foldl_cons, hstep]
    exact ih pq2 htail

/-- Claim C9: when every input of a non-empty sequence arrives strictly less
than the delay after the previous one, only the final value is ever
propagated, exactly once, at exactly one full delay after the final input;
every earlier pending timeout is cancelled before it can fire; and the
default delay of the hook is 300. -/
theorem debounce_spec {α : Type} (delay : Nat) (init : α) (first : Nat × α)
    (rest : List (Nat × α)) (tEnd : Nat)
    (hchain : List.Chain' (fun pq1 pq2 => pq1.1 < pq2.1 ∧ pq2.1 < pq1.1 + delay) (first :: rest))
    (hend : (rest.getLastD first).1 + delay ≤ tEnd) :
    settleDebounce delay init (first :: rest) tEnd
      = { debounced := (rest.getLastD first).2
          pending := none
          fired := [((rest.getLastD first).1 + delay, (rest.getLastD first).2)] } ∧
    useDebounceDefaultDelay = 300 := by
  refine ⟨?_, rfl⟩
  unfold settleDebounce runDebounce
  rw [List.foldl_cons]
  have hstep : stepInput delay { debounced := init, pending := none, fired := [] } first.1 first.2
      = { debounced := init, pending := some (first.1 + delay, first.2), fired := [] } := rfl
  rw [hstep, runDebounce_rapid delay init [] first rest hchain]
  show fireIfDue _ tEnd = _
  rw [fireIfDue_fires _ _ _ _ _ hend]
  rfl

/-- Witness for claim C9: four rapid inputs spaced 100 apart under the
default delay 300 propagate only the last value, once, at time 600. -/
theorem debounce_spec_witness :
    settleDebounce 300 "J".data
        [(0, "J".data), (100, "Jo".data), (200, "Joh".data), (300, "John".data)] 600
      = { debounced := "John".data, pending := none, fired := [(600, "John".data)] } := by
  have h := debounce_spec 300 "J".data (0, "J".data)
    [(100, "Jo".data), (200, "Joh".data), (300, "John".data)] 600
    (by simp [List.chain'_cons]) (by decide)
  exact h.1
